import Mathlib

/-!
Shallow embedding of `src/task/08-objects-tasks.js`.

The file embeds, in order:
* the CSS selector builder (`class Selector` and the `cssSelectorBuilder`
  facade) as a pure state-passing model, where each append method returns the
  post-state of the mutated object together with the error it throws, if any;
* a heap model of the same builder in which each `Selector` holds a reference
  into a store of fragment arrays, capturing the aliasing behaviour of the
  JavaScript arrays (`this.items.push` mutates in place, `[].concat` copies);
* the JSON helpers `getJSON` / `fromJSON`, with the platform primitives
  `JSON.stringify` / `JSON.parse` modelled by an executable printer and
  recursive-descent parser over a JSON value type;
* the `Rectangle` constructor, whose per-construction reassignment of
  `Rectangle.prototype.getArea` is modelled by an explicit shared slot.
-/

namespace ObjectsTasks

/-- Fragment kinds: the keys of the `order` table in the `Selector`
constructor, plus the rank-less `combinator` kind produced by `combine`. -/
inductive Kind where
  | element
  | id
  | «class»
  | attr
  | pseudoClass
  | pseudoElement
  | combinator
deriving DecidableEq, Repr

/-- One entry of `this.items`: `{ type, value }` with the already formatted
text in `value`. -/
structure Item where
  type : Kind
  value : String
deriving DecidableEq, Repr

/-- The `this.touched` record of the `Selector` constructor. -/
structure Touched where
  element : Bool
  id : Bool
  pseudoElement : Bool
deriving DecidableEq, Repr

/-- The mutable state of a `Selector` instance: `this.items` and
`this.touched` (the `this.order` table is the same constant for every
instance and is modelled by the function `order` below). -/
structure Selector where
  items : List Item
  touched : Touched
deriving DecidableEq, Repr

/-- The `this.order` rank table of the `Selector` constructor.  The
`combinator` kind has no entry, so looking it up yields `undefined`,
modelled as `none`. -/
def order : Kind → Option Nat
  | .element => some 1
  | .id => some 2
  | .«class» => some 3
  | .attr => some 4
  | .pseudoClass => some 5
  | .pseudoElement => some 6
  | .combinator => none

/-- JavaScript `a > b` on two `order` lookups: if either side is
`undefined` the comparison is `false`. -/
def jsGT : Option Nat → Option Nat → Bool
  | some a, some b => b < a
  | _, _ => false

/-- The two errors thrown by the builder, distinguished (as in the spec) by
their messages: the "should not occur more then one time" error and the
"should be arranged in the following order" error. -/
inductive SelErr where
  | duplicateSelectorPart
  | selectorOrder
deriving DecidableEq, Repr

/-- Constructor `new Selector(items)`: `this.items = items || []`, all `touched` flags
`false`. -/
def Selector.new (items : List Item) : Selector :=
  { items := items, touched := { element := false, id := false, pseudoElement := false } }

/-- Method `Selector.prototype.checkOrder`: `this.items.find(item =>
this.order[item.type] > this.order[orderType])` is truthy, i.e. some item
already in the sequence has a strictly larger rank (combinator items have
`undefined` rank and never match). -/
def Selector.checkOrder (s : Selector) (orderType : Kind) : Bool :=
  s.items.any fun item => jsGT (order item.type) (order orderType)

/-- Method `Selector.prototype.element`.  The pair holds the state of the receiver
after the call and the error thrown, if any; on an error the receiver was
not yet mutated. -/
def Selector.element (s : Selector) (value : String) : Selector × Option SelErr :=
  if s.touched.element then (s, some .duplicateSelectorPart)
  else if s.checkOrder .element then (s, some .selectorOrder)
  else ({ items := s.items ++ [{ type := .element, value := value }],
          touched := { s.touched with element := true } }, none)

/-- Method `Selector.prototype.id`: pushes `#${value}`. -/
def Selector.id (s : Selector) (value : String) : Selector × Option SelErr :=
  if s.touched.id then (s, some .duplicateSelectorPart)
  else if s.checkOrder .id then (s, some .selectorOrder)
  else ({ items := s.items ++ [{ type := .id, value := "#" ++ value }],
          touched := { s.touched with id := true } }, none)

/-- Method `Selector.prototype.class`: pushes `.${value}`; no duplicate check. -/
def Selector.«class» (s : Selector) (value : String) : Selector × Option SelErr :=
  if s.checkOrder .«class» then (s, some .selectorOrder)
  else ({ items := s.items ++ [{ type := .«class», value := "." ++ value }],
          touched := s.touched }, none)

/-- Method `Selector.prototype.attr`: pushes `[${value}]`; no duplicate check. -/
def Selector.attr (s : Selector) (value : String) : Selector × Option SelErr :=
  if s.checkOrder .attr then (s, some .selectorOrder)
  else ({ items := s.items ++ [{ type := .attr, value := "[" ++ value ++ "]" }],
          touched := s.touched }, none)

/-- Method `Selector.prototype.pseudoClass`: pushes `:${value}`; no duplicate
check. -/
def Selector.pseudoClass (s : Selector) (value : String) : Selector × Option SelErr :=
  if s.checkOrder .pseudoClass then (s, some .selectorOrder)
  else ({ items := s.items ++ [{ type := .pseudoClass, value := ":" ++ value }],
          touched := s.touched }, none)

/-- Method `Selector.prototype.pseudoElement`: pushes `::${value}`. -/
def Selector.pseudoElement (s : Selector) (value : String) : Selector × Option SelErr :=
  if s.touched.pseudoElement then (s, some .duplicateSelectorPart)
  else if s.checkOrder .pseudoElement then (s, some .selectorOrder)
  else ({ items := s.items ++ [{ type := .pseudoElement, value := "::" ++ value }],
          touched := { s.touched with pseudoElement := true } }, none)

/-- Method `Selector.prototype.stringify`:
`[].concat(this.items).map(item => item.value).join('')`. -/
def Selector.stringify (s : Selector) : String :=
  String.join ((([] : List Item) ++ s.items).map fun item => item.value)

/-- Facade method `cssSelectorBuilder.combine`: `new Selector([].concat(selector1.items,
[{ type: 'combinator', value: ` ${combinator} ` }], selector2.items))`.
Total: no order or duplicate check runs, and no error can be thrown. -/
def combine (selector1 : Selector) (combinator : String) (selector2 : Selector) : Selector :=
  Selector.new (([] : List Item) ++ selector1.items ++
    [{ type := .combinator, value := " " ++ combinator ++ " " }] ++ selector2.items)

namespace cssSelectorBuilder

/-- Facade `cssSelectorBuilder.element`: `(new Selector()).element(value)`. -/
def element (value : String) : Selector × Option SelErr :=
  (Selector.new []).element value

/-- Facade `cssSelectorBuilder.id`. -/
def id (value : String) : Selector × Option SelErr :=
  (Selector.new []).id value

/-- Facade `cssSelectorBuilder.class`. -/
def «class» (value : String) : Selector × Option SelErr :=
  (Selector.new []).«class» value

/-- Facade `cssSelectorBuilder.attr`. -/
def attr (value : String) : Selector × Option SelErr :=
  (Selector.new []).attr value

/-- Facade `cssSelectorBuilder.pseudoClass`. -/
def pseudoClass (value : String) : Selector × Option SelErr :=
  (Selector.new []).pseudoClass value

/-- Facade `cssSelectorBuilder.pseudoElement`. -/
def pseudoElement (value : String) : Selector × Option SelErr :=
  (Selector.new []).pseudoElement value

/-- Facade `cssSelectorBuilder.stringify`: `(new Selector()).stringify()`. -/
def stringify : String :=
  (Selector.new []).stringify

end cssSelectorBuilder

/-- The six append operations (every `Selector` method except `stringify`),
used to quantify over "every append operation of kind K". -/
inductive AKind where
  | element
  | id
  | «class»
  | attr
  | pseudoClass
  | pseudoElement
deriving DecidableEq, Repr

/-- The fragment kind an append operation of kind `k` pushes. -/
def AKind.toKind : AKind → Kind
  | .element => .element
  | .id => .id
  | .«class» => .«class»
  | .attr => .attr
  | .pseudoClass => .pseudoClass
  | .pseudoElement => .pseudoElement

/-- The rank of an append kind as the spec lists it: element(1) < id(2) <
class(3) < attribute(4) < pseudoClass(5) < pseudoElement(6). -/
def AKind.rank : AKind → Nat
  | .element => 1
  | .id => 2
  | .«class» => 3
  | .attr => 4
  | .pseudoClass => 5
  | .pseudoElement => 6

/-- Dispatch an append operation of kind `k` to the corresponding
`Selector` method. -/
def appendOp (k : AKind) (v : String) (s : Selector) : Selector × Option SelErr :=
  match k with
  | .element => s.element v
  | .id => s.id v
  | .«class» => s.«class» v
  | .attr => s.attr v
  | .pseudoClass => s.pseudoClass v
  | .pseudoElement => s.pseudoElement v

/-- Reachable builder states, with the history of the append kinds that were
successfully applied to this very instance since its construction: a fresh
builder (`new Selector()` behind the facade) starts with empty history, a
successful append extends it, and `combine` constructs a new instance, so
its history restarts empty. -/
inductive ReachH : List AKind → Selector → Prop where
  | fresh : ReachH [] (Selector.new [])
  | step {h : List AKind} {s s' : Selector} {k : AKind} {v : String} :
      ReachH h s → appendOp k v s = (s', none) → ReachH (h ++ [k]) s'
  | comb {h₁ h₂ : List AKind} {s₁ s₂ : Selector} {t : String} :
      ReachH h₁ s₁ → ReachH h₂ s₂ → ReachH [] (combine s₁ t s₂)

/-- A reachable builder state. -/
def Reach (s : Selector) : Prop := ∃ h, ReachH h s

/-- Builder states reachable without ever using `combine`: a fresh builder
followed by successful appends only. -/
inductive ReachNC : Selector → Prop where
  | fresh : ReachNC (Selector.new [])
  | step {s s' : Selector} {k : AKind} {v : String} :
      ReachNC s → appendOp k v s = (s', none) → ReachNC s'

/-! ## Heap model of the builder

In the JavaScript source `this.items` is a mutable array: each append method
ends in `this.items.push(...)`, which mutates that array in place, while
`combine` builds its argument with `[].concat(...)`, which allocates a fresh
array holding copies of the operands' entries.  To state the aliasing claim
these semantics are made explicit: a `Heap` is a store of arrays addressed
by allocation index, an `HSel` holds a reference into it, an append writes
through the reference, and `hCombine` allocates a fresh array. -/

/-- The store of `items` arrays, addressed by allocation order. -/
abbrev Heap := List (List Item)

/-- Read the array at reference `r`. -/
def Heap.read (h : Heap) (r : Nat) : List Item := h.getD r []

/-- Overwrite the array at reference `r` (what `push` does to the array
object behind the reference). -/
def Heap.write (h : Heap) (r : Nat) (v : List Item) : Heap := h.set r v

/-- Allocate a fresh array (what `[].concat(...)` does), returning the new
heap and the fresh reference. -/
def Heap.alloc (h : Heap) (v : List Item) : Heap × Nat := (h ++ [v], h.length)

/-- A `Selector` instance in the heap model: a reference to its `items`
array plus its (unaliased, per-instance) `touched` record. -/
structure HSel where
  itemsRef : Nat
  touched : Touched
deriving DecidableEq, Repr

/-- An append method called on `s` in heap `h`: run the method on the array
behind `s.itemsRef`, write the resulting array back through the same
reference, and return the updated receiver and thrown error. -/
def hAppend (k : AKind) (v : String) (h : Heap) (s : HSel) : Heap × HSel × Option SelErr :=
  let r := appendOp k v { items := h.read s.itemsRef, touched := s.touched }
  (h.write s.itemsRef r.1.items, ({ itemsRef := s.itemsRef, touched := r.1.touched }, r.2))

/-- Operation `combine` in the heap model: `[].concat(a.items, [combinator], b.items)`
allocates a fresh array, and `new Selector(...)` wraps it with cleared
`touched` flags. -/
def hCombine (h : Heap) (a : HSel) (t : String) (b : HSel) : Heap × HSel :=
  let alloc := h.alloc (([] : List Item) ++ h.read a.itemsRef ++
    [{ type := .combinator, value := " " ++ t ++ " " }] ++ h.read b.itemsRef)
  (alloc.1, { itemsRef := alloc.2, touched := { element := false, id := false, pseudoElement := false } })

/-- Operation `stringify` in the heap model: read the array behind the reference and
join the fragment texts. -/
def hStringify (h : Heap) (s : HSel) : String :=
  Selector.stringify { items := h.read s.itemsRef, touched := s.touched }

/-! ## The JSON helpers `getJSON` and `fromJSON`

`getJSON(obj)` is `JSON.stringify(obj)` and `fromJSON(proto, json)` is
`Object.setPrototypeOf(JSON.parse(json), proto)`.  The platform primitives
`JSON.stringify` / `JSON.parse` are not part of the repository, so they are
modelled here over an explicit JSON value type: `printVal` emits the
compact (no-whitespace) text `JSON.stringify` produces, and `parseVal` is a
recursive-descent parser for that compact grammar.  Modelling scope:
numbers are integers (no fractions, exponents, or IEEE-754 behaviour),
string escaping covers `\"` and `\\` (strings are assumed free of control
characters, which `JSON.stringify` would escape further), and `JSON.parse`
is modelled on the whitespace-free texts `JSON.stringify` emits. -/

namespace Json

/-- A JSON value.  Strings, including object keys, are kept as character
lists so that printing and parsing work uniformly over `List Char`. -/
inductive JVal where
  | obj (fields : List (List Char × JVal))
  | arr (elems : List JVal)
  | str (s : List Char)
  | num (n : Int)
  | bool (b : Bool)
  | null

/-- Escape one character of a JSON string body: `"` and `\` get a
backslash, everything else is emitted verbatim. -/
def escapeChar (c : Char) : List Char :=
  if c = '"' ∨ c = '\\' then ['\\', c] else [c]

/-- Escape a whole string body. -/
def escapeStr (s : List Char) : List Char :=
  match s with
  | c :: rest => escapeChar c ++ escapeStr rest
  | [] => []

/-- Decimal digits of `n`, most significant first. -/
def printNat (n : Nat) : List Char :=
  if n = 0 then ['0']
  else ((Nat.digits 10 n).reverse).map fun d => Char.ofNat (48 + d)

/-- Decimal text of an integer, with a leading `-` when negative. -/
def printInt (n : Int) : List Char :=
  if n < 0 then '-' :: printNat n.natAbs else printNat n.natAbs

mutual

/-- The text `JSON.stringify` produces for a value (compact form). -/
def printVal : JVal → List Char
  | .num n => printInt n
  | .str s => '"' :: escapeStr s ++ ['"']
  | .arr xs => '[' :: printElems xs ++ [']']
  | .obj fs => '\x7b' :: printFields fs ++ ['\x7d']
  | .null => "null".data
  | .bool b => (cond b "true" "false").data

/-- Array elements, comma separated. -/
def printElems : List JVal → List Char
  | [] => []
  | [x] => printVal x
  | x :: y :: xs => printVal x ++ ',' :: printElems (y :: xs)

/-- Object fields, comma separated, each as `"key":value`. -/
def printFields : List (List Char × JVal) → List Char
  | [] => []
  | [f] => '"' :: escapeStr f.1 ++ '"' :: ':' :: printVal f.2
  | f :: g :: fs =>
      ('"' :: escapeStr f.1 ++ '"' :: ':' :: printVal f.2) ++ ',' :: printFields (g :: fs)

end

/-- Parse a string body up to (and consuming) the closing quote, undoing
`escapeStr`. -/
def parseStrBody : List Char → Option (List Char × List Char)
  | [] => none
  | c :: rest =>
    if c = '"' then some ([], rest)
    else if c = '\\' then
      match rest with
      | [] => none
      | e :: rest' =>
        if e = '"' ∨ e = '\\' then
          (parseStrBody rest').map fun p => (e :: p.1, p.2)
        else none
    else (parseStrBody rest).map fun p => (c :: p.1, p.2)

/-- Split off the maximal run of leading decimal digits. -/
def takeDigits (cs : List Char) : List Char × List Char :=
  match cs with
  | c :: rest =>
    if c.isDigit then ((takeDigits rest).1.cons c, (takeDigits rest).2)
    else ([], cs)
  | [] => ([], [])

/-- Numeric value of a digit character. -/
def digitVal (c : Char) : Nat := c.toNat - 48

/-- Parse a nonempty run of decimal digits as a natural number. -/
def parseNat (cs : List Char) : Option (Nat × List Char) :=
  let p := takeDigits cs
  if p.1 = [] then none
  else some (Nat.ofDigits 10 ((p.1.map digitVal).reverse), p.2)

mutual

/-- Recursive-descent parser for one compact JSON value, returning the
value and the unconsumed remainder.  `fuel` bounds the recursion depth;
`jsonParse` below supplies enough for any input (every recursive call
spends one unit, and parsing a text of length `n` spends at most `2*n`). -/
def parseVal : Nat → List Char → Option (JVal × List Char)
  | 0, _ => none
  | fuel + 1, cs =>
    match cs with
    | [] => none
    | c :: rest =>
      if c = 'n' then
        match rest with
        | 'u' :: 'l' :: 'l' :: r => some (.null, r)
        | _ => none
      else if c = 't' then
        match rest with
        | 'r' :: 'u' :: 'e' :: r => some (.bool true, r)
        | _ => none
      else if c = 'f' then
        match rest with
        | 'a' :: 'l' :: 's' :: 'e' :: r => some (.bool false, r)
        | _ => none
      else if c = '"' then
        (parseStrBody rest).map fun p => (.str p.1, p.2)
      else if c = '-' then
        (parseNat rest).map fun p => (.num (-(p.1 : Int)), p.2)
      else if c.isDigit then
        (parseNat (c :: rest)).map fun p => (.num (p.1 : Int), p.2)
      else if c = '[' then
        match rest with
        | ']' :: r => some (.arr [], r)
        | _ => (parseElems fuel rest).map fun p => (.arr p.1, p.2)
      else if c = '\x7b' then
        match rest with
        | '\x7d' :: r => some (.obj [], r)
        | _ => (parseFields fuel rest).map fun p => (.obj p.1, p.2)
      else none

/-- Parse a nonempty comma-separated element list and its closing `]`. -/
def parseElems : Nat → List Char → Option (List JVal × List Char)
  | 0, _ => none
  | fuel + 1, cs =>
    match parseVal fuel cs with
    | none => none
    | some (v, r) =>
      match r with
      | ']' :: r' => some ([v], r')
      | ',' :: r' => (parseElems fuel r').map fun p => (v :: p.1, p.2)
      | _ => none

/-- Parse a nonempty comma-separated field list and its closing `}`. -/
def parseFields : Nat → List Char → Option (List (List Char × JVal) × List Char)
  | 0, _ => none
  | fuel + 1, cs =>
    match cs with
    | '"' :: r0 =>
      match parseStrBody r0 with
      | none => none
      | some (k, r1) =>
        match r1 with
        | ':' :: r2 =>
          match parseVal fuel r2 with
          | none => none
          | some (v, r3) =>
            match r3 with
            | '\x7d' :: r4 => some ([(k, v)], r4)
            | ',' :: r4 => (parseFields fuel r4).map fun p => ((k, v) :: p.1, p.2)
            | _ => none
        | _ => none
    | _ => none

end

/-- Model of `JSON.parse` on a complete compact text: parse one value and require
the input to be fully consumed. -/
def jsonParse (cs : List Char) : Option JVal :=
  match parseVal (2 * cs.length + 1) cs with
  | some (v, []) => some v
  | _ => none

/-- A valid continuation after a printed number: empty, or starting with a
non-digit (in printed JSON a number is always followed by `,`, `]`, `}` or
the end of the text). -/
def NumSep : List Char → Prop
  | [] => True
  | c :: _ => c.isDigit = false

/-- The characters that can start a printed JSON value. -/
def startOk (c : Char) : Bool :=
  c = 'n' || c = 't' || c = 'f' || c = '"' || c = '-' || c.isDigit || c = '[' || c = '\x7b'

end Json

/-- A JavaScript object as the claims see it: its own enumerable string-keyed
properties in insertion order, plus its prototype, drawn from an arbitrary
type `P`. -/
structure JSObject (P : Type) where
  props : List (List Char × Json.JVal)
  proto : P

/-- Model of `function getJSON(obj)`, i.e. `JSON.stringify(obj)`, on a plain
object: serialize its own enumerable properties. -/
def getJSON {P : Type} (obj : JSObject P) : String :=
  String.mk (Json.printVal (.obj obj.props))

/-- Model of `function fromJSON(proto, json)`, i.e.
`Object.setPrototypeOf(JSON.parse(json), proto)`: parse the text and
attach the given prototype.  `none` models a `JSON.parse` failure; a parse
result that is not an object is outside the plain-object scope modelled
here. -/
def fromJSON {P : Type} (proto : P) (json : String) : Option (JSObject P) :=
  match Json.jsonParse json.data with
  | some (.obj fields) => some { props := fields, proto := proto }
  | _ => none

/-! ## The `Rectangle` constructor

`function Rectangle(width, height)` stores `width` and `height` on the new
instance and then reassigns `Rectangle.prototype.getArea` to a closure over
its own `width`/`height` parameters.  All instances share the single
`Rectangle.prototype.getArea` slot, so the slot is modelled explicitly as
the state `RectProto`: `none` before any construction (the method is
undefined), otherwise the `(width, height)` pair captured by the closure
installed by the most recent construction. -/

/-- The shared `Rectangle.prototype.getArea` slot: the parameter pair
captured by the currently installed closure, if any. -/
abbrev RectProto := Option (Int × Int)

/-- One constructed rectangle instance: its own `width` and `height`
fields. -/
structure RectInst where
  width : Int
  height : Int
deriving DecidableEq, Repr

/-- Constructor call `new Rectangle(width, height)`: sets the instance fields and overwrites
the shared prototype slot with a closure capturing this call's
parameters. -/
def Rectangle (_g : RectProto) (width height : Int) : RectProto × RectInst :=
  (some (width, height), { width := width, height := height })

/-- Method call `r.getArea()`: looks up `getArea` on the shared prototype and runs the
installed closure, which returns `width * height` for the captured
parameters — the instance `r` contributes nothing.  `none` models the
`TypeError` of calling it before any construction. -/
def RectInst.getArea (g : RectProto) (_ : RectInst) : Option Int :=
  g.map fun p => p.1 * p.2

/-! ## Derived notions used by the statements -/

/-- The duplicate guard an append of kind `k` runs before its order check:
the `touched` flag for the singleton kinds, constantly `false` for `class`,
`attr` and `pseudoClass`. -/
def dupGuard (s : Selector) : AKind → Bool
  | .element => s.touched.element
  | .id => s.touched.id
  | .pseudoElement => s.touched.pseudoElement
  | .«class» => false
  | .attr => false
  | .pseudoClass => false

/-- The formatted text an append of kind `k` pushes for argument `v`. -/
def formatValue : AKind → String → String
  | .element, v => v
  | .id, v => "#" ++ v
  | .«class», v => "." ++ v
  | .attr, v => "[" ++ v ++ "]"
  | .pseudoClass, v => ":" ++ v
  | .pseudoElement, v => "::" ++ v

/-- The `touched` record after a successful append of kind `k`. -/
def touchedAfter : AKind → Touched → Touched
  | .element, t => { t with element := true }
  | .id, t => { t with id := true }
  | .pseudoElement, t => { t with pseudoElement := true }
  | .«class», t => t
  | .attr, t => t
  | .pseudoClass, t => t

/-- Number of fragments of kind `k` in a fragment list. -/
def kindCount (k : Kind) (items : List Item) : Nat :=
  items.countP fun i => i.type == k

/-- The ranks of the non-combinator fragments, left to right (combinator
fragments carry no rank and are skipped). -/
def nonCombRanks (items : List Item) : List Nat :=
  items.filterMap fun i => order i.type

/-- Within each maximal combinator-free segment the ranks are
non-decreasing: `last` carries the rank of the closest ranked fragment to
the left in the current segment, and a combinator resets it. -/
def segMono (last : Option Nat) : List Item → Bool
  | [] => true
  | i :: rest =>
    match order i.type with
    | none => segMono none rest
    | some r =>
      match last with
      | none => segMono (some r) rest
      | some l => decide (l ≤ r) && segMono (some r) rest

/-- Concatenation of the fragment texts in sequence order, no separator. -/
def concatTexts : List Item → String
  | [] => ""
  | i :: rest => i.value ++ concatTexts rest

/-! ## Concrete states used in counterexamples and witnesses -/

/-- The builder `cssSelectorBuilder.element('a').class('x')`. -/
def elemClassState : Selector :=
  { items := [{ type := .element, value := "a" }, { type := .«class», value := ".x" }],
    touched := { element := true, id := false, pseudoElement := false } }

/-- The builder `cssSelectorBuilder.class('x')`. -/
def classXState : Selector :=
  { items := [{ type := .«class», value := ".x" }],
    touched := { element := false, id := false, pseudoElement := false } }

/-- The builder `cssSelectorBuilder.element('div')`. -/
def elemDivState : Selector :=
  { items := [{ type := .element, value := "div" }],
    touched := { element := true, id := false, pseudoElement := false } }

/-- The builder `cssSelectorBuilder.element('a')`. -/
def elemAState : Selector :=
  { items := [{ type := .element, value := "a" }],
    touched := { element := true, id := false, pseudoElement := false } }

/-- The builder `cssSelectorBuilder.element('b')`. -/
def elemBState : Selector :=
  { items := [{ type := .element, value := "b" }],
    touched := { element := true, id := false, pseudoElement := false } }

/-- The builder `combine(class('x'), '+', element('div'))`. -/
def combClassElemState : Selector := combine classXState "+" elemDivState

/-- The builder `combine(element('a'), '+', element('b'))`. -/
def combElemElemState : Selector := combine elemAState "+" elemBState

/-- A two-array heap for the aliasing witness: array 0 holds `element('div')`,
array 1 holds `element('p')`. -/
def heapW : Heap :=
  [[{ type := .element, value := "div" }], [{ type := .element, value := "p" }]]

/-- A builder referencing array 0 of `heapW`. -/
def aSelW : HSel := { itemsRef := 0, touched := { element := true, id := false, pseudoElement := false } }

/-- A builder referencing array 1 of `heapW`. -/
def bSelW : HSel := { itemsRef := 1, touched := { element := true, id := false, pseudoElement := false } }

/-! ## Lemmas about the append operations -/

lemma order_toKind (k : AKind) : order k.toKind = some k.rank := by
  cases k <;> rfl

lemma jsGT_some_iff (a : Option Nat) (b : Nat) :
    jsGT a (some b) = true ↔ ∃ x, a = some x ∧ b < x := by
  cases a <;> simp [jsGT]

lemma checkOrder_iff (s : Selector) (k : AKind) :
    s.checkOrder k.toKind = true ↔
      ∃ i ∈ s.items, ∃ r, order i.type = some r ∧ k.rank < r := by
  simp only [Selector.checkOrder, List.any_eq_true, order_toKind, jsGT_some_iff]

lemma checkOrder_false (s : Selector) (k : AKind)
    (h : s.checkOrder k.toKind = false) :
    ∀ i ∈ s.items, ∀ r, order i.type = some r → r ≤ k.rank := by
  intro i hi r hr
  by_contra hlt
  have : s.checkOrder k.toKind = true :=
    (checkOrder_iff s k).mpr ⟨i, hi, r, hr, Nat.lt_of_not_le hlt⟩
  simp [this] at h

lemma appendOp_dup_iff (k : AKind) (v : String) (s : Selector) :
    (appendOp k v s).2 = some SelErr.duplicateSelectorPart ↔ dupGuard s k = true := by
  cases k <;>
    simp only [appendOp, Selector.element, Selector.id, Selector.«class», Selector.attr,
      Selector.pseudoClass, Selector.pseudoElement, dupGuard] <;>
    split_ifs <;> simp_all

lemma appendOp_order_iff (k : AKind) (v : String) (s : Selector) :
    (appendOp k v s).2 = some SelErr.selectorOrder ↔
      dupGuard s k = false ∧ s.checkOrder k.toKind = true := by
  cases k <;>
    simp only [appendOp, Selector.element, Selector.id, Selector.«class», Selector.attr,
      Selector.pseudoClass, Selector.pseudoElement, dupGuard, AKind.toKind] <;>
    split_ifs <;> simp_all

lemma appendOp_ok (k : AKind) (v : String) (s s' : Selector)
    (h : appendOp k v s = (s', none)) :
    s'.items = s.items ++ [{ type := k.toKind, value := formatValue k v }] ∧
      s'.touched = touchedAfter k s.touched ∧
      dupGuard s k = false ∧ s.checkOrder k.toKind = false := by
  cases k <;>
    simp only [appendOp, Selector.element, Selector.id, Selector.«class», Selector.attr,
      Selector.pseudoClass, Selector.pseudoElement, dupGuard, AKind.toKind,
      formatValue, touchedAfter] at h ⊢ <;>
    split_ifs at h <;> simp_all <;> simp [← h]

lemma appendOp_err_state (k : AKind) (v : String) (s : Selector)
    (h : (appendOp k v s).2.isSome = true) :
    (appendOp k v s).1 = s := by
  cases k <;>
    simp only [appendOp, Selector.element, Selector.id, Selector.«class», Selector.attr,
      Selector.pseudoClass, Selector.pseudoElement] at h ⊢ <;>
    split_ifs <;> simp_all

/-! ## Lemmas about reachable states -/

/-- The `touched` flags record exactly which singleton append operation has
been successfully run on this very instance. -/
lemma touched_iff_hist {h : List AKind} {s : Selector} (hr : ReachH h s) :
    (s.touched.element = true ↔ AKind.element ∈ h) ∧
      (s.touched.id = true ↔ AKind.id ∈ h) ∧
      (s.touched.pseudoElement = true ↔ AKind.pseudoElement ∈ h) := by
  induction hr with
  | fresh => simp [Selector.new]
  | comb h₁ h₂ ih₁ ih₂ => simp [combine, Selector.new]
  | step hr hap ih =>
    rename_i hist s₀ s' k v
    obtain ⟨-, ht, -, -⟩ := appendOp_ok k v s₀ s' hap
    cases k <;>
      simp [ht, touchedAfter, ih.1, ih.2.1, ih.2.2]

/-- A successful append extends `kindCount` for its own kind only. -/
lemma kindCount_append (k : Kind) (items : List Item) (i : Item) :
    kindCount k (items ++ [i]) = kindCount k items + (if i.type = k then 1 else 0) := by
  simp only [kindCount, List.countP_append, List.countP_cons, List.countP_nil, beq_iff_eq]
  split_ifs <;> simp_all

/-- On builders never touched by `combine`, `kindCount` of each singleton
kind is exactly its `touched` flag. -/
lemma kindCount_touched {s : Selector} (hr : ReachNC s) :
    kindCount .element s.items = (if s.touched.element then 1 else 0) ∧
      kindCount .id s.items = (if s.touched.id then 1 else 0) ∧
      kindCount .pseudoElement s.items = (if s.touched.pseudoElement then 1 else 0) := by
  induction hr with
  | fresh => simp [Selector.new, kindCount]
  | step hr hap ih =>
    rename_i s₀ s' k v
    obtain ⟨hi, ht, hdup, -⟩ := appendOp_ok k v s₀ s' hap
    rw [hi, ht, kindCount_append, kindCount_append, kindCount_append]
    cases k <;> simp_all [touchedAfter, AKind.toKind, dupGuard]

/-- Appending an item whose rank dominates every rank in the list preserves
per-segment monotonicity. -/
lemma segMono_push (items : List Item) (i : Item) (r : Nat)
    (hr : order i.type = some r)
    (hdom : ∀ j ∈ items, ∀ rj, order j.type = some rj → rj ≤ r) :
    ∀ last : Option Nat, segMono last items = true →
      (∀ l, last = some l → l ≤ r) → segMono last (items ++ [i]) = true := by
  induction items with
  | nil =>
    intro last _ hlast
    cases last with
    | none => simp [segMono, hr]
    | some l => simp [segMono, hr, hlast l rfl]
  | cons j rest ih =>
    intro last hmono hlast
    have hdom' : ∀ j' ∈ rest, ∀ rj, order j'.type = some rj → rj ≤ r := by
      intro j' hj' rj hrj
      exact hdom j' (List.mem_cons_of_mem _ hj') rj hrj
    simp only [List.cons_append, segMono] at hmono ⊢
    cases hjt : order j.type with
    | none =>
      simp only [hjt] at hmono ⊢
      exact ih hdom' none hmono (by intro l hl; cases hl)
    | some rj =>
      have hjr : rj ≤ r := hdom j (List.mem_cons_self _ _) rj hjt
      simp only [hjt] at hmono ⊢
      cases last with
      | none =>
        exact ih hdom' (some rj) hmono (by intro l hl; cases hl; exact hjr)
      | some l =>
        simp only [Bool.and_eq_true, decide_eq_true_eq] at hmono ⊢
        exact ⟨hmono.1, ih hdom' (some rj) hmono.2 (by intro l' hl'; cases hl'; exact hjr)⟩

/-- Concatenating two per-segment monotone sequences around a combinator
fragment stays per-segment monotone. -/
lemma segMono_append_comb (a : List Item) (c : Item) (b : List Item)
    (hc : order c.type = none) (hb : segMono none b = true) :
    ∀ last : Option Nat, segMono last a = true → segMono last (a ++ c :: b) = true := by
  induction a with
  | nil =>
    intro last _
    simp [segMono, hc, hb]
  | cons j rest ih =>
    intro last hmono
    simp only [List.cons_append, segMono] at hmono ⊢
    cases hjt : order j.type with
    | none =>
      simp only [hjt] at hmono ⊢
      exact ih none hmono
    | some rj =>
      simp only [hjt] at hmono ⊢
      cases last with
      | none => exact ih (some rj) hmono
      | some l =>
        simp only [Bool.and_eq_true] at hmono ⊢
        exact ⟨hmono.1, ih (some rj) hmono.2⟩

lemma foldl_strAppend (l : List String) (acc : String) :
    l.foldl (· ++ ·) acc = acc ++ l.foldl (· ++ ·) "" := by
  induction l generalizing acc with
  | nil => simp [List.foldl]
  | cons a l ih =>
    simp only [List.foldl]
    rw [ih (acc ++ a), ih ("" ++ a), String.empty_append, String.append_assoc]

/-- The method `stringify` computes the separator-free concatenation of the fragment
texts. -/
lemma stringify_eq_concatTexts (s : Selector) :
    s.stringify = concatTexts s.items := by
  simp only [Selector.stringify, List.nil_append]
  induction s.items with
  | nil => rfl
  | cons i rest ih =>
    simp only [List.map_cons, concatTexts, ← ih, String.join, List.foldl]
    rw [foldl_strAppend, String.empty_append]

/-! ## Lemmas about the heap model -/

lemma Heap.read_write_ne (h : Heap) {r r' : Nat} (v : List Item) (hne : r' ≠ r) :
    (h.write r' v).read r = h.read r := by
  simp [Heap.read, Heap.write, List.getD_eq_getElem?_getD, List.getElem?_set_ne hne]

lemma Heap.read_append_lt (h : Heap) (v : List Item) {r : Nat} (hr : r < h.length) :
    (h ++ [v]).read r = h.read r := by
  simp [Heap.read, List.getD_eq_getElem?_getD, List.getElem?_append_left hr]

lemma hAppend_read_other (k : AKind) (v : String) (h : Heap) (s : HSel) {r : Nat}
    (hne : s.itemsRef ≠ r) :
    (hAppend k v h s).1.read r = h.read r := by
  simp only [hAppend]
  exact Heap.read_write_ne h _ hne

lemma hStringify_congr {h₁ h₂ : Heap} {s : HSel}
    (he : h₁.read s.itemsRef = h₂.read s.itemsRef) :
    hStringify h₁ s = hStringify h₂ s := by
  simp [hStringify, he]

lemma reach_elemClassState : ReachH [AKind.element, AKind.«class»] elemClassState := by
  have h₁ : ReachH [AKind.element] elemAState :=
    ReachH.step ReachH.fresh (k := .element) (v := "a") rfl
  exact ReachH.step h₁ (k := .«class») (v := "x") rfl

lemma reach_classXState : ReachH [AKind.«class»] classXState :=
  ReachH.step ReachH.fresh (k := .«class») (v := "x") rfl

lemma reach_elemDivState : ReachH [AKind.element] elemDivState :=
  ReachH.step ReachH.fresh (k := .element) (v := "div") rfl

lemma reach_elemAState : ReachH [AKind.element] elemAState :=
  ReachH.step ReachH.fresh (k := .element) (v := "a") rfl

lemma reach_elemBState : ReachH [AKind.element] elemBState :=
  ReachH.step ReachH.fresh (k := .element) (v := "b") rfl

lemma reach_combClassElemState : Reach combClassElemState :=
  ⟨[], ReachH.comb reach_classXState reach_elemDivState⟩

lemma reach_combElemElemState : Reach combElemElemState :=
  ⟨[], ReachH.comb reach_elemAState reach_elemBState⟩

/-! ## Lemmas about the JSON printer and parser -/

namespace Json

lemma parseStrBody_print (s rest : List Char) :
    parseStrBody (escapeStr s ++ '"' :: rest) = some (s, rest) := by
  induction s with
  | nil =>
    show parseStrBody ('"' :: rest) = some ([], rest)
    rw [parseStrBody.eq_def]
    simp
  | cons c s ih =>
    by_cases hc : c = '"' ∨ c = '\\'
    · have h1 : escapeStr (c :: s) = '\\' :: c :: escapeStr s := by
        simp only [escapeStr, escapeChar]
        rw [if_pos hc]
        rfl
      rw [h1]
      simp only [List.cons_append, parseStrBody]
      simp [hc, ih]
    · have h1 : escapeStr (c :: s) = c :: escapeStr s := by
        simp only [escapeStr, escapeChar]
        rw [if_neg hc]
        rfl
      push_neg at hc
      rw [h1, List.cons_append, parseStrBody.eq_def]
      simp only [hc.1, hc.2, if_false, ih]
      rfl

lemma digitVal_digitChar {d : Nat} (hd : d < 10) : digitVal (Char.ofNat (48 + d)) = d := by
  interval_cases d <;> decide

lemma isDigit_digitChar {d : Nat} (hd : d < 10) : (Char.ofNat (48 + d)).isDigit = true := by
  interval_cases d <;> decide

lemma printNat_digits (n : Nat) : ∀ c ∈ printNat n, c.isDigit = true := by
  intro c hc
  unfold printNat at hc
  split at hc
  · simp at hc
    subst hc
    decide
  · simp only [List.mem_map, List.mem_reverse] at hc
    obtain ⟨d, hd, rfl⟩ := hc
    exact isDigit_digitChar (Nat.digits_lt_base (by norm_num) hd)

lemma printNat_ne_nil (n : Nat) : printNat n ≠ [] := by
  unfold printNat
  split
  · simp
  · simp only [ne_eq, List.map_eq_nil_iff, List.reverse_eq_nil_iff]
    exact Nat.digits_ne_nil_iff_ne_zero.mpr (by assumption)

lemma printNat_head (n : Nat) :
    ∃ c t, printNat n = c :: t ∧ c.isDigit = true := by
  cases hp : printNat n with
  | nil => exact absurd hp (printNat_ne_nil n)
  | cons c t =>
    exact ⟨c, t, rfl, printNat_digits n c (by rw [hp]; exact List.mem_cons_self _ _)⟩

lemma takeDigits_spec (ds : List Char) (hds : ∀ c ∈ ds, c.isDigit = true) :
    ∀ rest : List Char, NumSep rest → takeDigits (ds ++ rest) = (ds, rest) := by
  induction ds with
  | nil =>
    intro rest hrest
    cases rest with
    | nil => rfl
    | cons c r =>
      have hcd : c.isDigit = false := hrest
      simp [takeDigits, hcd]
  | cons c ds ih =>
    intro rest hrest
    have hc := hds c (List.mem_cons_self _ _)
    have ihr := ih (fun x hx => hds x (List.mem_cons_of_mem _ hx)) rest hrest
    simp [takeDigits, hc, ihr]

lemma parseNat_print (n : Nat) (rest : List Char) (hrest : NumSep rest) :
    parseNat (printNat n ++ rest) = some (n, rest) := by
  have ht := takeDigits_spec (printNat n) (printNat_digits n) rest hrest
  have hval : Nat.ofDigits 10 ((printNat n).map digitVal).reverse = n := by
    unfold printNat
    split
    · rename_i h0
      subst h0
      simp [digitVal, Nat.ofDigits]
    · rw [List.map_map]
      have hcong : ∀ d ∈ (Nat.digits 10 n).reverse,
          (digitVal ∘ fun d => Char.ofNat (48 + d)) d = id d := by
        intro d hd
        simp only [Function.comp_apply, id_eq]
        exact digitVal_digitChar (Nat.digits_lt_base (by norm_num) (List.mem_reverse.mp hd))
      rw [List.map_congr_left hcong, List.map_id, List.reverse_reverse, Nat.ofDigits_digits]
  simp only [parseNat, ht]
  rw [if_neg (printNat_ne_nil n), hval]

lemma printVal_length_pos (v : JVal) : 1 ≤ (printVal v).length := by
  cases v with
  | null => decide
  | bool b => cases b <;> decide
  | num n =>
    unfold printVal printInt
    split
    · simp
    · obtain ⟨c, t, hp, -⟩ := printNat_head n.natAbs
      simp [hp]
  | str s => simp [printVal]
  | arr xs => simp [printVal]
  | obj fs => simp [printVal]

lemma startOk_rules (c : Char) (h : startOk c = true) :
    c ≠ ']' ∧ c ≠ '\x7d' ∧ c ≠ ',' := by
  refine ⟨?_, ?_, ?_⟩ <;> rintro rfl <;> revert h <;> decide

lemma isDigit_startOk {c : Char} (h : c.isDigit = true) : startOk c = true := by
  simp [startOk, h]

lemma printVal_head (v : JVal) :
    ∃ c t, printVal v = c :: t ∧ startOk c = true := by
  cases v with
  | null => exact ⟨'n', _, rfl, by decide⟩
  | bool b =>
    cases b with
    | false => exact ⟨'f', _, rfl, by decide⟩
    | true => exact ⟨'t', _, rfl, by decide⟩
  | num n =>
    show ∃ c t, printInt n = c :: t ∧ startOk c = true
    unfold printInt
    split
    · exact ⟨'-', _, rfl, by decide⟩
    · obtain ⟨c, t, hp, hd⟩ := printNat_head n.natAbs
      exact ⟨c, t, hp, isDigit_startOk hd⟩
  | str s => exact ⟨'"', _, rfl, by decide⟩
  | arr xs => exact ⟨'[', _, rfl, by decide⟩
  | obj fs => exact ⟨'\x7b', _, rfl, by decide⟩

lemma printElems_shape (x : JVal) (xs : List JVal) :
    ∃ c t, printElems (x :: xs) = c :: t ∧ startOk c = true := by
  obtain ⟨c, t, hp, hok⟩ := printVal_head x
  cases xs with
  | nil => exact ⟨c, t, by simp [printElems, hp], hok⟩
  | cons y ys => exact ⟨c, t ++ ',' :: printElems (y :: ys), by simp [printElems, hp], hok⟩

lemma printFields_shape (f : List Char × JVal) (fs : List (List Char × JVal)) :
    ∃ t, printFields (f :: fs) = '"' :: t := by
  cases fs with
  | nil => exact ⟨_, rfl⟩
  | cons g gs => exact ⟨_, rfl⟩

lemma numSep_cons {c : Char} (r : List Char) (h : c.isDigit = false) : NumSep (c :: r) := h

lemma isDigit_excl {c : Char} (h : c.isDigit = true) :
    c ≠ 'n' ∧ c ≠ 't' ∧ c ≠ 'f' ∧ c ≠ '"' ∧ c ≠ '-' := by
  refine ⟨?_, ?_, ?_, ?_, ?_⟩ <;> rintro rfl <;> revert h <;> decide

lemma parseVal_neg_step (fuel : Nat) (r : List Char) :
    parseVal (fuel + 1) ('-' :: r) =
      (parseNat r).map fun p => (JVal.num (-(p.1 : Int)), p.2) := rfl

lemma parseVal_arr_step (fuel : Nat) (r : List Char) :
    parseVal (fuel + 1) ('[' :: r) =
      (match r with
        | ']' :: rr => some (JVal.arr [], rr)
        | _ => (parseElems fuel r).map fun p => (JVal.arr p.1, p.2)) := rfl

lemma parseVal_obj_step (fuel : Nat) (r : List Char) :
    parseVal (fuel + 1) ('\x7b' :: r) =
      (match r with
        | '\x7d' :: rr => some (JVal.obj [], rr)
        | _ => (parseFields fuel r).map fun p => (JVal.obj p.1, p.2)) := rfl

/-- The compact printer and the recursive-descent parser are mutually
inverse, at every sufficient fuel, on every printed value followed by any
continuation that cannot extend a number. -/
lemma parse_print_aux (fuel : Nat) :
    (∀ v rest, 2 * (printVal v ++ rest).length ≤ fuel → NumSep rest →
        parseVal fuel (printVal v ++ rest) = some (v, rest)) ∧
      (∀ x xs rest, 2 * (printElems (x :: xs) ++ ']' :: rest).length + 1 ≤ fuel →
        parseElems fuel (printElems (x :: xs) ++ ']' :: rest) = some (x :: xs, rest)) ∧
      (∀ f fs rest, 2 * (printFields (f :: fs) ++ '\x7d' :: rest).length + 1 ≤ fuel →
        parseFields fuel (printFields (f :: fs) ++ '\x7d' :: rest) = some (f :: fs, rest)) := by
  induction fuel with
  | zero =>
    refine ⟨?_, ?_, ?_⟩
    · intro v rest hlen _
      have := printVal_length_pos v
      simp only [List.length_append] at hlen
      omega
    · intro x xs rest hlen
      omega
    · intro f fs rest hlen
      omega
  | succ fuel ih =>
    obtain ⟨ihv, ihe, ihf⟩ := ih
    have hv : ∀ v rest, 2 * (printVal v ++ rest).length ≤ fuel + 1 → NumSep rest →
        parseVal (fuel + 1) (printVal v ++ rest) = some (v, rest) := by
      intro v rest hlen hsep
      cases v with
      | null =>
        show parseVal (fuel + 1) ('n' :: 'u' :: 'l' :: 'l' :: rest) = some (.null, rest)
        simp [parseVal]
      | bool b =>
        cases b with
        | false =>
          show parseVal (fuel + 1) ('f' :: 'a' :: 'l' :: 's' :: 'e' :: rest) =
            some (.bool false, rest)
          simp [parseVal]
        | true =>
          show parseVal (fuel + 1) ('t' :: 'r' :: 'u' :: 'e' :: rest) = some (.bool true, rest)
          simp [parseVal]
      | str s =>
        show parseVal (fuel + 1) (('"' :: escapeStr s ++ ['"']) ++ rest) = some (.str s, rest)
        have hshape : ('"' :: escapeStr s ++ ['"']) ++ rest =
            '"' :: (escapeStr s ++ '"' :: rest) := by
          simp
        rw [hshape]
        simp [parseVal, parseStrBody_print]
      | num n =>
        show parseVal (fuel + 1) (printInt n ++ rest) = some (.num n, rest)
        by_cases hneg : n < 0
        · have hshape : printInt n ++ rest = '-' :: (printNat n.natAbs ++ rest) := by
            simp [printInt, hneg]
          rw [hshape, parseVal_neg_step, parseNat_print _ _ hsep]
          simp only [Option.map_some']
          have habs : -((n.natAbs : Nat) : Int) = n := by omega
          rw [habs]
        · have hshape : printInt n ++ rest = printNat n.natAbs ++ rest := by
            simp [printInt, hneg]
          obtain ⟨c, t, hp, hd⟩ := printNat_head n.natAbs
          obtain ⟨hn1, hn2, hn3, hn4, hn5⟩ := isDigit_excl hd
          rw [hshape, hp, List.cons_append]
          simp only [parseVal]
          rw [if_neg hn1, if_neg hn2, if_neg hn3, if_neg hn4, if_neg hn5, if_pos hd,
            ← List.cons_append, ← hp, parseNat_print _ _ hsep]
          simp only [Option.map_some']
          have habs : ((n.natAbs : Nat) : Int) = n := by omega
          rw [habs]
      | arr xs =>
        cases xs with
        | nil =>
          show parseVal (fuel + 1) (('[' :: printElems [] ++ [']']) ++ rest) =
            some (.arr [], rest)
          simp [printElems, parseVal]
        | cons x xs =>
          show parseVal (fuel + 1) (('[' :: printElems (x :: xs) ++ [']']) ++ rest) =
            some (.arr (x :: xs), rest)
          have hshape : ('[' :: printElems (x :: xs) ++ [']']) ++ rest =
              '[' :: (printElems (x :: xs) ++ ']' :: rest) := by
            simp
          rw [hshape]
          obtain ⟨c, t, hpe, hok⟩ := printElems_shape x xs
          obtain ⟨hc1, -, -⟩ := startOk_rules c hok
          have hlen' : 2 * (printElems (x :: xs) ++ ']' :: rest).length + 1 ≤ fuel := by
            simp only [printVal, List.length_append, List.length_cons] at hlen ⊢
            omega
          rw [parseVal_arr_step, hpe, List.cons_append]
          split
          · rename_i r heq
            injection heq with h1 h2
            exact absurd h1 hc1
          · rw [← List.cons_append, ← hpe, ihe x xs rest hlen']
            rfl
      | obj fs =>
        cases fs with
        | nil =>
          show parseVal (fuel + 1) (('\x7b' :: printFields [] ++ ['\x7d']) ++ rest) =
            some (.obj [], rest)
          simp [printFields, parseVal]
        | cons f fs =>
          show parseVal (fuel + 1) (('\x7b' :: printFields (f :: fs) ++ ['\x7d']) ++ rest) =
            some (.obj (f :: fs), rest)
          have hshape : ('\x7b' :: printFields (f :: fs) ++ ['\x7d']) ++ rest =
              '\x7b' :: (printFields (f :: fs) ++ '\x7d' :: rest) := by
            simp
          rw [hshape]
          obtain ⟨t, hpf⟩ := printFields_shape f fs
          have hlen' : 2 * (printFields (f :: fs) ++ '\x7d' :: rest).length + 1 ≤ fuel := by
            simp only [printVal, List.length_append, List.length_cons] at hlen ⊢
            omega
          rw [parseVal_obj_step, hpf, List.cons_append]
          split
          · rename_i r heq
            injection heq with h1 h2
            exact absurd h1 (by decide)
          · rw [← List.cons_append, ← hpf, ihf f fs rest hlen']
            rfl
    have he : ∀ x xs rest, 2 * (printElems (x :: xs) ++ ']' :: rest).length + 1 ≤ fuel + 1 →
        parseElems (fuel + 1) (printElems (x :: xs) ++ ']' :: rest) = some (x :: xs, rest) := by
      intro x xs rest hlen
      cases xs with
      | nil =>
        have hshape : printElems [x] ++ ']' :: rest = printVal x ++ ']' :: rest := by
          simp [printElems]
        have hlenv : 2 * (printVal x ++ ']' :: rest).length ≤ fuel := by
          rw [hshape] at hlen
          omega
        rw [hshape]
        simp only [parseElems]
        rw [ihv x (']' :: rest) hlenv (numSep_cons rest (by decide))]
        rfl
      | cons y ys =>
        have hshape : printElems (x :: y :: ys) ++ ']' :: rest =
            printVal x ++ ',' :: (printElems (y :: ys) ++ ']' :: rest) := by
          simp [printElems]
        have hx1 := printVal_length_pos x
        have hlenv : 2 * (printVal x ++ ',' :: (printElems (y :: ys) ++ ']' :: rest)).length ≤
            fuel := by
          rw [hshape] at hlen
          omega
        have hlen' : 2 * (printElems (y :: ys) ++ ']' :: rest).length + 1 ≤ fuel := by
          rw [hshape] at hlen
          simp only [List.length_append, List.length_cons] at hlen ⊢
          omega
        rw [hshape]
        simp only [parseElems]
        rw [ihv x (',' :: (printElems (y :: ys) ++ ']' :: rest)) hlenv
          (numSep_cons _ (by decide))]
        simp only [ihe y ys rest hlen', Option.map_some']
    have hf : ∀ f fs rest, 2 * (printFields (f :: fs) ++ '\x7d' :: rest).length + 1 ≤ fuel + 1 →
        parseFields (fuel + 1) (printFields (f :: fs) ++ '\x7d' :: rest) =
          some (f :: fs, rest) := by
      intro f fs rest hlen
      obtain ⟨k, v⟩ := f
      have hv1 := printVal_length_pos v
      cases fs with
      | nil =>
        have hshape : printFields [(k, v)] ++ '\x7d' :: rest =
            '"' :: (escapeStr k ++ '"' :: (':' :: (printVal v ++ '\x7d' :: rest))) := by
          simp [printFields]
        have hlenv : 2 * (printVal v ++ '\x7d' :: rest).length ≤ fuel := by
          rw [hshape] at hlen
          simp only [List.length_append, List.length_cons] at hlen ⊢
          omega
        rw [hshape]
        simp only [parseFields]
        simp only [parseStrBody_print k (':' :: (printVal v ++ '\x7d' :: rest))]
        simp only [ihv v ('\x7d' :: rest) hlenv (numSep_cons rest (by decide))]
      | cons g gs =>
        have hshape : printFields ((k, v) :: g :: gs) ++ '\x7d' :: rest =
            '"' :: (escapeStr k ++ '"' ::
              (':' :: (printVal v ++ ',' :: (printFields (g :: gs) ++ '\x7d' :: rest)))) := by
          simp [printFields]
        have hlenv : 2 * (printVal v ++ ',' :: (printFields (g :: gs) ++ '\x7d' :: rest)).length ≤
            fuel := by
          rw [hshape] at hlen
          simp only [List.length_append, List.length_cons] at hlen ⊢
          omega
        have hlen' : 2 * (printFields (g :: gs) ++ '\x7d' :: rest).length + 1 ≤ fuel := by
          rw [hshape] at hlen
          simp only [List.length_append, List.length_cons] at hlen ⊢
          omega
        rw [hshape]
        simp only [parseFields]
        simp only [parseStrBody_print k
          (':' :: (printVal v ++ ',' :: (printFields (g :: gs) ++ '\x7d' :: rest)))]
        simp only [ihv v (',' :: (printFields (g :: gs) ++ '\x7d' :: rest)) hlenv
          (numSep_cons _ (by decide))]
        simp only [ihf g gs rest hlen', Option.map_some']
    exact ⟨hv, he, hf⟩

/-- Parsing a complete printed text returns exactly the printed value. -/
lemma jsonParse_print (v : JVal) : jsonParse (printVal v) = some v := by
  unfold jsonParse
  have h := (parse_print_aux (2 * (printVal v).length + 1)).1 v []
    (by simp only [List.append_nil]; omega) trivial
  rw [List.append_nil] at h
  rw [h]

end Json

/-! ## Claims -/

/-- C1, counterexample: on the reachable builder
`element('a').class('x')`, calling `element('b')` finds a fragment (the
class fragment, rank 3) of rank strictly greater than `element`'s rank 1,
yet does not raise `SelectorOrderError`: the duplicate check fires first.
This refutes the claimed "if and only if". -/
theorem C1_counterexample :
    Reach elemClassState ∧
      (∃ i ∈ elemClassState.items, ∃ r, order i.type = some r ∧ AKind.rank .element < r) ∧
      ¬ (elemClassState.element "b").2 = some SelErr.selectorOrder := by
  refine ⟨⟨_, reach_elemClassState⟩, ?_, ?_⟩ <;> decide

/-- C1 (amended): an append of kind K raises `SelectorOrderError` iff its
duplicate guard does not fire (for `element`, `id`, `pseudoElement`, the
kind's `touched` flag is still unset) and some fragment already in the
sequence — combinator fragments excluded, since they carry no rank — has
rank strictly greater than K's rank under element(1) < id(2) < class(3) <
attribute(4) < pseudoClass(5) < pseudoElement(6); in particular `id(...)`
after `class(...)` raises `SelectorOrderError`. -/
theorem C1_selectorOrder_iff (s : Selector) (k : AKind) (v : String) :
    ((appendOp k v s).2 = some SelErr.selectorOrder ↔
      dupGuard s k = false ∧ ∃ i ∈ s.items, ∃ r, order i.type = some r ∧ k.rank < r) ∧
      ((cssSelectorBuilder.«class» "x").1.id "main").2 = some SelErr.selectorOrder := by
  constructor
  · simp only [appendOp_order_iff, checkOrder_iff]
  · decide

/-- C2, counterexample: `combine(class('x'), '+', element('div'))` is a
reachable builder whose non-combinator rank sequence is `[3, 1]`, which is
not non-decreasing. -/
theorem C2_counterexample :
    Reach combClassElemState ∧
      ¬ List.Chain' (· ≤ ·) (nonCombRanks combClassElemState.items) := by
  refine ⟨reach_combClassElemState, ?_⟩
  rw [show nonCombRanks combClassElemState.items = [3, 1] from rfl]
  simp [List.chain'_cons]

/-- C2 (amended): in every reachable builder, the rank sequence is
non-decreasing within each maximal combinator-free segment of the fragment
sequence (`combine` starts a new segment, across which ranks may drop), and
this is preserved by every operation. -/
theorem C2_segment_monotone (s : Selector) (h : Reach s) :
    segMono none s.items = true := by
  obtain ⟨hist, hr⟩ := h
  induction hr with
  | fresh => rfl
  | comb h₁ h₂ ih₁ ih₂ =>
    rename_i ha hb s₁ s₂ t
    show segMono none (combine s₁ t s₂).items = true
    have hshape : (combine s₁ t s₂).items =
        s₁.items ++ ({ type := .combinator, value := " " ++ t ++ " " } : Item) :: s₂.items := by
      simp [combine, Selector.new]
    rw [hshape]
    exact segMono_append_comb s₁.items
      { type := .combinator, value := " " ++ t ++ " " } s₂.items rfl ih₂ none ih₁
  | step hr hap ih =>
    rename_i hist s₀ s' k v
    obtain ⟨hi, -, -, hco⟩ := appendOp_ok k v s₀ s' hap
    rw [hi]
    exact segMono_push s₀.items _ k.rank (order_toKind k)
      (checkOrder_false s₀ k hco) none ih (by intro l hl; cases hl)

/-- Witness for C2 (amended) at the reachable builder
`combine(class('x'), '+', element('div'))`. -/
theorem C2_segment_monotone_witness :
    segMono none combClassElemState.items = true :=
  C2_segment_monotone combClassElemState reach_combClassElemState

/-- C3, counterexample: `combine(element('a'), '+', element('b'))` is a
reachable builder containing two `element` fragments. -/
theorem C3_counterexample :
    Reach combElemElemState ∧ ¬ kindCount .element combElemElemState.items ≤ 1 := by
  refine ⟨reach_combElemElemState, ?_⟩
  decide

/-- C3 (amended): in every reachable builder produced without `combine`
(a fresh builder mutated only by its append operations), the kinds
`element`, `id` and `pseudoElement` each occur at most once in the fragment
sequence; builders produced by `combine` (or appended to afterwards) can
hold several, since concatenation applies no check and resets the
`touched` flags. -/
theorem C3_singletons_unique (s : Selector) (h : ReachNC s) :
    kindCount .element s.items ≤ 1 ∧ kindCount .id s.items ≤ 1 ∧
      kindCount .pseudoElement s.items ≤ 1 := by
  obtain ⟨he, hi, hp⟩ := kindCount_touched h
  rw [he, hi, hp]
  refine ⟨?_, ?_, ?_⟩ <;> split <;> omega

/-- Witness for C3 (amended) at the builder `element('a')`. -/
theorem C3_singletons_unique_witness :
    kindCount .element elemAState.items ≤ 1 ∧ kindCount .id elemAState.items ≤ 1 ∧
      kindCount .pseudoElement elemAState.items ≤ 1 :=
  C3_singletons_unique elemAState
    (ReachNC.step ReachNC.fresh (k := .element) (v := "a") rfl)

/-- C4: `element`, `id` and `pseudoElement` raise
`DuplicateSelectorPartError` exactly when that same operation has already
been run successfully on this builder instance (its entry in the history
`h`), while `class`, `attr` and `pseudoClass` never raise it; repeated
classes concatenate, e.g. `class('x').class('y').stringify() = '.x.y'`. -/
theorem C4_duplicate_iff (h : List AKind) (s : Selector) (v : String) (hr : ReachH h s) :
    ((s.element v).2 = some SelErr.duplicateSelectorPart ↔ AKind.element ∈ h) ∧
      ((s.id v).2 = some SelErr.duplicateSelectorPart ↔ AKind.id ∈ h) ∧
      ((s.pseudoElement v).2 = some SelErr.duplicateSelectorPart ↔ AKind.pseudoElement ∈ h) ∧
      ¬ (s.«class» v).2 = some SelErr.duplicateSelectorPart ∧
      ¬ (s.attr v).2 = some SelErr.duplicateSelectorPart ∧
      ¬ (s.pseudoClass v).2 = some SelErr.duplicateSelectorPart ∧
      ((cssSelectorBuilder.«class» "x").1.«class» "y").1.stringify = ".x.y" := by
  obtain ⟨te, ti, tp⟩ := touched_iff_hist hr
  have de := appendOp_dup_iff .element v s
  have di := appendOp_dup_iff .id v s
  have dp := appendOp_dup_iff .pseudoElement v s
  have dc := appendOp_dup_iff .«class» v s
  have da := appendOp_dup_iff .attr v s
  have dpc := appendOp_dup_iff .pseudoClass v s
  simp only [appendOp, dupGuard] at de di dp dc da dpc
  refine ⟨?_, ?_, ?_, ?_, ?_, ?_, by decide⟩
  · rw [de, te]
  · rw [di, ti]
  · rw [dp, tp]
  · simp [dc]
  · simp [da]
  · simp [dpc]

/-- Witness for C4 on the builder `element('a')` with history `[element]`:
a second `element` raises the duplicate error, the other appends do not. -/
theorem C4_duplicate_iff_witness :
    ((elemAState.element "b").2 = some SelErr.duplicateSelectorPart ↔
        AKind.element ∈ [AKind.element]) ∧
      ((elemAState.id "b").2 = some SelErr.duplicateSelectorPart ↔
        AKind.id ∈ [AKind.element]) ∧
      ((elemAState.pseudoElement "b").2 = some SelErr.duplicateSelectorPart ↔
        AKind.pseudoElement ∈ [AKind.element]) ∧
      ¬ (elemAState.«class» "b").2 = some SelErr.duplicateSelectorPart ∧
      ¬ (elemAState.attr "b").2 = some SelErr.duplicateSelectorPart ∧
      ¬ (elemAState.pseudoClass "b").2 = some SelErr.duplicateSelectorPart ∧
      ((cssSelectorBuilder.«class» "x").1.«class» "y").1.stringify = ".x.y" :=
  C4_duplicate_iff [AKind.element] elemAState "b" reach_elemAState

/-- C5: every append is atomic — if it raises either error, the fragment
sequence and the singleton-usage flags are unchanged (strong exception
safety; in the code both checks run before any mutation). -/
theorem C5_atomic (s : Selector) (k : AKind) (v : String)
    (h : (appendOp k v s).2.isSome = true) :
    (appendOp k v s).1.items = s.items ∧ (appendOp k v s).1.touched = s.touched := by
  rw [appendOp_err_state k v s h]
  exact ⟨rfl, rfl⟩

/-- Witness for C5: `id` on `class('x')` errors and leaves the builder
unchanged. -/
theorem C5_atomic_witness :
    (appendOp .id "main" classXState).2.isSome = true ∧
      ((appendOp .id "main" classXState).1.items = classXState.items ∧
        (appendOp .id "main" classXState).1.touched = classXState.touched) :=
  ⟨by decide, C5_atomic classXState .id "main" (by decide)⟩

/-- C6: `combine(A, t, B)` returns a new builder whose fragments are A's,
then one combinator fragment `" " ++ t ++ " "`, then B's, with cleared
singleton flags and no order or duplicate check (it is total and cannot
throw); the `div#main + table#data` example stringifies as claimed. -/
theorem C6_combine (a : Selector) (t : String) (b : Selector) :
    (combine a t b).items =
        a.items ++ [{ type := .combinator, value := " " ++ t ++ " " }] ++ b.items ∧
      (combine a t b).touched = { element := false, id := false, pseudoElement := false } ∧
      (combine ((cssSelectorBuilder.element "div").1.id "main").1 "+"
          ((cssSelectorBuilder.element "table").1.id "data").1).stringify =
        "div#main + table#data" := by
  refine ⟨by simp [combine, Selector.new], rfl, by decide⟩

/-- C7: `combine` aliases nothing.  In the heap model, combining allocates
a fresh array, so (i) combining changes neither operand's array nor its
`stringify` output, (ii) appending to the combined builder leaves both
operands' arrays and outputs unchanged, and (iii) appending to either
operand leaves the combined builder's array and output unchanged. -/
theorem C7_no_aliasing (h : Heap) (a b : HSel) (t : String) (k k' : AKind) (v v' : String)
    (ha : a.itemsRef < h.length) (hb : b.itemsRef < h.length) :
    ((hCombine h a t b).1.read a.itemsRef = h.read a.itemsRef) ∧
      ((hCombine h a t b).1.read b.itemsRef = h.read b.itemsRef) ∧
      (hStringify (hCombine h a t b).1 a = hStringify h a) ∧
      (hStringify (hCombine h a t b).1 b = hStringify h b) ∧
      ((hAppend k v (hCombine h a t b).1 (hCombine h a t b).2).1.read a.itemsRef =
        (hCombine h a t b).1.read a.itemsRef) ∧
      ((hAppend k v (hCombine h a t b).1 (hCombine h a t b).2).1.read b.itemsRef =
        (hCombine h a t b).1.read b.itemsRef) ∧
      (hStringify (hAppend k v (hCombine h a t b).1 (hCombine h a t b).2).1 a =
        hStringify (hCombine h a t b).1 a) ∧
      (hStringify (hAppend k v (hCombine h a t b).1 (hCombine h a t b).2).1 b =
        hStringify (hCombine h a t b).1 b) ∧
      ((hAppend k' v' (hCombine h a t b).1 a).1.read (hCombine h a t b).2.itemsRef =
        (hCombine h a t b).1.read (hCombine h a t b).2.itemsRef) ∧
      (hStringify (hAppend k' v' (hCombine h a t b).1 a).1 (hCombine h a t b).2 =
        hStringify (hCombine h a t b).1 (hCombine h a t b).2) ∧
      ((hAppend k' v' (hCombine h a t b).1 b).1.read (hCombine h a t b).2.itemsRef =
        (hCombine h a t b).1.read (hCombine h a t b).2.itemsRef) ∧
      (hStringify (hAppend k' v' (hCombine h a t b).1 b).1 (hCombine h a t b).2 =
        hStringify (hCombine h a t b).1 (hCombine h a t b).2) := by
  have hcref : (hCombine h a t b).2.itemsRef = h.length := rfl
  have hane : a.itemsRef ≠ h.length := Nat.ne_of_lt ha
  have hbne : b.itemsRef ≠ h.length := Nat.ne_of_lt hb
  have hra : (hCombine h a t b).1.read a.itemsRef = h.read a.itemsRef :=
    Heap.read_append_lt h _ ha
  have hrb : (hCombine h a t b).1.read b.itemsRef = h.read b.itemsRef :=
    Heap.read_append_lt h _ hb
  have hca : (hAppend k v (hCombine h a t b).1 (hCombine h a t b).2).1.read a.itemsRef =
      (hCombine h a t b).1.read a.itemsRef :=
    hAppend_read_other k v _ _ (by rw [hcref]; exact Ne.symm hane)
  have hcb : (hAppend k v (hCombine h a t b).1 (hCombine h a t b).2).1.read b.itemsRef =
      (hCombine h a t b).1.read b.itemsRef :=
    hAppend_read_other k v _ _ (by rw [hcref]; exact Ne.symm hbne)
  have hac : (hAppend k' v' (hCombine h a t b).1 a).1.read (hCombine h a t b).2.itemsRef =
      (hCombine h a t b).1.read (hCombine h a t b).2.itemsRef :=
    hAppend_read_other k' v' _ _ (by rw [hcref]; exact hane)
  have hbc : (hAppend k' v' (hCombine h a t b).1 b).1.read (hCombine h a t b).2.itemsRef =
      (hCombine h a t b).1.read (hCombine h a t b).2.itemsRef :=
    hAppend_read_other k' v' _ _ (by rw [hcref]; exact hbne)
  exact ⟨hra, hrb, hStringify_congr hra, hStringify_congr hrb, hca, hcb,
    hStringify_congr hca, hStringify_congr hcb, hac, hStringify_congr hac,
    hbc, hStringify_congr hbc⟩

/-- Witness for C7 on a concrete two-array heap. -/
theorem C7_no_aliasing_witness :
    aSelW.itemsRef < heapW.length ∧ bSelW.itemsRef < heapW.length ∧
      (((hCombine heapW aSelW "+" bSelW).1.read aSelW.itemsRef = heapW.read aSelW.itemsRef) ∧
        ((hCombine heapW aSelW "+" bSelW).1.read bSelW.itemsRef = heapW.read bSelW.itemsRef) ∧
        (hStringify (hCombine heapW aSelW "+" bSelW).1 aSelW = hStringify heapW aSelW) ∧
        (hStringify (hCombine heapW aSelW "+" bSelW).1 bSelW = hStringify heapW bSelW) ∧
        ((hAppend .id "z" (hCombine heapW aSelW "+" bSelW).1
            (hCombine heapW aSelW "+" bSelW).2).1.read aSelW.itemsRef =
          (hCombine heapW aSelW "+" bSelW).1.read aSelW.itemsRef) ∧
        ((hAppend .id "z" (hCombine heapW aSelW "+" bSelW).1
            (hCombine heapW aSelW "+" bSelW).2).1.read bSelW.itemsRef =
          (hCombine heapW aSelW "+" bSelW).1.read bSelW.itemsRef) ∧
        (hStringify (hAppend .id "z" (hCombine heapW aSelW "+" bSelW).1
            (hCombine heapW aSelW "+" bSelW).2).1 aSelW =
          hStringify (hCombine heapW aSelW "+" bSelW).1 aSelW) ∧
        (hStringify (hAppend .id "z" (hCombine heapW aSelW "+" bSelW).1
            (hCombine heapW aSelW "+" bSelW).2).1 bSelW =
          hStringify (hCombine heapW aSelW "+" bSelW).1 bSelW) ∧
        ((hAppend .«class» "c" (hCombine heapW aSelW "+" bSelW).1 aSelW).1.read
            (hCombine heapW aSelW "+" bSelW).2.itemsRef =
          (hCombine heapW aSelW "+" bSelW).1.read (hCombine heapW aSelW "+" bSelW).2.itemsRef) ∧
        (hStringify (hAppend .«class» "c" (hCombine heapW aSelW "+" bSelW).1 aSelW).1
            (hCombine heapW aSelW "+" bSelW).2 =
          hStringify (hCombine heapW aSelW "+" bSelW).1 (hCombine heapW aSelW "+" bSelW).2) ∧
        ((hAppend .«class» "c" (hCombine heapW aSelW "+" bSelW).1 bSelW).1.read
            (hCombine heapW aSelW "+" bSelW).2.itemsRef =
          (hCombine heapW aSelW "+" bSelW).1.read (hCombine heapW aSelW "+" bSelW).2.itemsRef) ∧
        (hStringify (hAppend .«class» "c" (hCombine heapW aSelW "+" bSelW).1 bSelW).1
            (hCombine heapW aSelW "+" bSelW).2 =
          hStringify (hCombine heapW aSelW "+" bSelW).1 (hCombine heapW aSelW "+" bSelW).2)) :=
  ⟨by decide, by decide,
    C7_no_aliasing heapW aSelW bSelW "+" .id .«class» "z" "c" (by decide) (by decide)⟩

/-- C8: `stringify` returns the separator-free concatenation of the
fragment texts in sequence order (so, being a pure function of the state,
repeated calls return the identical string), and on a builder with zero
fragments — including the facade's zero-argument `stringify()` — it
returns `''`. -/
theorem C8_stringify (s : Selector) :
    s.stringify = concatTexts s.items ∧
      (Selector.new []).stringify = "" ∧ cssSelectorBuilder.stringify = "" :=
  ⟨stringify_eq_concatTexts s, rfl, rfl⟩

/-- C9: serialization round-trips — for every modelled JSON-serializable
plain object `obj` and every prototype `p`,
`fromJSON(p, getJSON(obj))` returns an object whose own enumerable
properties equal `obj`'s (same keys and values, in order) and whose
prototype is `p`. -/
theorem C9_json_roundtrip {P : Type} (p : P) (obj : JSObject P) :
    fromJSON p (getJSON obj) = some { props := obj.props, proto := p } := by
  unfold fromJSON getJSON
  have hd : (String.mk (Json.printVal (.obj obj.props))).data =
      Json.printVal (.obj obj.props) := rfl
  rw [hd, Json.jsonParse_print]

/-- C10: because every construction reassigns the shared
`Rectangle.prototype.getArea` closure, `getArea()` on any instance returns
the product of the arguments of the most recent construction; after
`r1 = new Rectangle(10,20)` and `r2 = new Rectangle(3,4)`, `r1.getArea()`
is `12` while `r1.width` is still `10` and `r1.height` still `20`. -/
theorem C10_prototype_capture (g : RectProto) (w hgt : Int) (r : RectInst) :
    RectInst.getArea (Rectangle g w hgt).1 r = some (w * hgt) ∧
      RectInst.getArea (Rectangle (Rectangle g 10 20).1 3 4).1 (Rectangle g 10 20).2 =
        some 12 ∧
      (Rectangle g 10 20).2.width = 10 ∧ (Rectangle g 10 20).2.height = 20 :=
  ⟨rfl, by norm_num [Rectangle, RectInst.getArea], rfl, rfl⟩

end ObjectsTasks
